import Mathlib

set_option autoImplicit false

/-!
Verification model of the magic-di dependency injector
(`src/magic_di/_injector.py`, `src/magic_di/_container.py`,
`src/magic_di/_utils.py`, `src/magic_di/_signature.py`).

The embedding is a state-passing translation of the Python code:
* Python types/callables are identified by `TypeId` (identity semantics);
  their reflection data (`typing.get_type_hints`, `issubclass`/`isinstance`
  outcomes against `ConnectableProtocol`, class-ness, constructor behaviour)
  is supplied by an environment `Env`, since those are facts about the
  user-supplied objects, not about this repository's code.
* Constructed instances are heap cells (`HeapObj`) identified by allocation
  index; `is` comparison is index equality.
* Exceptions are `Except` values; `PyErr` distinguishes `TypeError` (which
  several helpers catch) from other exception classes.
* The thread lock collapses in this sequential model: `add`'s double-checked
  locking reduces to a single check, because in the model construction cannot
  interleave with another thread's registration.
-/

deriving instance DecidableEq for Except

namespace MagicDi

/-- Model of Python exception classes that matter to the code under test:
`TypeError` is caught by `safe_is_subclass`, `safe_is_instance`,
`get_type_hints` and `SingletonDependencyContainer.add`'s caller; every
other exception class is only ever propagated or wrapped. -/
inductive PyErr where
  | typeError
  | valueError
  | nameError
  | attributeError
  deriving DecidableEq, Repr

/-- Identity of a Python type/callable object. -/
abbrev TypeId := Nat

/-- Shape of a type annotation: either a bare class `T` or a two-member
null union `T | None` (`Optional[T]`), which `get_cls_from_optional`
strips (`_utils.py` lines 26-64). -/
inductive HintShape where
  | plain (t : TypeId)
  | optionalOf (t : TypeId)
  deriving DecidableEq, Repr

/-- A type annotation together with its `typing.Annotated` metadata:
`forcedInjectable` models the presence of the `Injectable` marker read from
the original (pre-binding) annotation (`_injector.py` lines 52-56, 129-131). -/
structure Hint where
  shape : HintShape
  forcedInjectable : Bool
  deriving DecidableEq, Repr

/-- One reflected parameter of a target, as produced by `get_type_hints`
(after the source's dropping of `self` and `return`, which is reflection
bookkeeping absorbed into the environment's parameter list). -/
structure Param where
  name : String
  hint : Hint
  deriving DecidableEq, Repr

/-- Reflection facts about one Python type/callable, i.e. the outcome of the
CPython primitives the repository calls on it.
`rawHints` is what `typing.get_type_hints` does for this target (it can
raise); `subclassCheck`/`instanceCheck` are the outcomes of
`issubclass(T, ConnectableProtocol)` / `isinstance(T, ConnectableProtocol)`
(they can raise, e.g. through a metaclass hook);
`hasLifecycleMethods` says whether constructed instances of this class carry
`__connect__`/`__disconnect__` (the runtime-protocol `isinstance` answer for
instances); `ctorRaisesTypeError` says the constructor raises `TypeError`
(missing required arguments); the hook-failure flags drive the lifecycle
hooks; `instanceTruthy` is `bool(instance)` for instances of this class. -/
structure TargetInfo where
  isClass : Bool
  rawHints : Except PyErr (List Param)
  subclassCheck : Except PyErr Bool
  instanceCheck : Except PyErr Bool
  hasLifecycleMethods : Bool
  isInjectorSubclass : Bool
  ctorRaisesTypeError : Bool
  connectHookFails : Bool
  disconnectHookFails : Bool
  instanceTruthy : Bool
  deriving DecidableEq, Repr

/-- The reflection environment: what CPython says about each type object. -/
abbrev Env := TypeId → TargetInfo

/-! ### `_utils.py` -/

/-- `get_cls_from_optional` (`_utils.py` lines 26-64): strip a two-member
union with `None`; a non-union annotation passes through unchanged. -/
def get_cls_from_optional : HintShape → TypeId
  | .plain t => t
  | .optionalOf t => t

/-- `safe_is_subclass` (`_utils.py` lines 67-71): `issubclass` with only
`TypeError` caught and turned into `False`; other exceptions propagate. -/
def safe_is_subclass (env : Env) (t : TypeId) : Except PyErr Bool :=
  match (env t).subclassCheck with
  | .error .typeError => .ok false
  | .error e => .error e
  | .ok b => .ok b

/-- `safe_is_instance` (`_utils.py` lines 74-78): `isinstance` with only
`TypeError` caught and turned into `False`; other exceptions propagate. -/
def safe_is_instance (env : Env) (t : TypeId) : Except PyErr Bool :=
  match (env t).instanceCheck with
  | .error .typeError => .ok false
  | .error e => .error e
  | .ok b => .ok b

/-- `is_connectable` (`_utils.py` lines 81-96):
`safe_is_subclass(cls, ConnectableProtocol) or safe_is_instance(cls,
ConnectableProtocol)`, with Python's short-circuiting `or`.  The source
returns `cls` or `None`; callers only use its truthiness, so the model
returns the `Bool`. -/
def is_connectable (env : Env) (t : TypeId) : Except PyErr Bool :=
  match safe_is_subclass env t with
  | .error e => .error e
  | .ok true => .ok true
  | .ok false => safe_is_instance env t

/-- `get_type_hints` (`_utils.py` lines 99-106): the repository's wrapper
around `typing.get_type_hints` that catches `TypeError` and returns an
empty hint dict; other exceptions propagate.  (The class/`__init__`
dispatch is part of how `rawHints` is obtained for the target.) -/
def get_type_hints (env : Env) (t : TypeId) : Except PyErr (List Param) :=
  match (env t).rawHints with
  | .error .typeError => .ok []
  | .error e => .error e
  | .ok hs => .ok hs

/-! ### `_signature.py` and the injector's data -/

/-- `Signature` (`_signature.py`): the inspection record. -/
structure Sig where
  obj : TypeId
  is_injectable : Bool
  deps : List (String × TypeId) := []
  kwargs : List (String × TypeId) := []
  injector_arg : Option String := none
  deriving DecidableEq, Repr

/-- `InspectionError` (`exceptions.py` lines 54-71): wraps the original
target and, via `raise ... from exc`, the original exception. -/
structure InspErr where
  obj : TypeId
  cause : PyErr
  deriving DecidableEq, Repr

/-- A keyword argument passed to a constructor: either a constructed
instance or the injector itself (`clients[signature.injector_arg] = self`). -/
inductive AttrVal where
  | inst (i : Nat)
  | injectorSelf
  deriving DecidableEq, Repr

/-- A constructed Python object: its class and the keyword arguments it was
constructed with (the only attributes the injector itself installs). -/
structure HeapObj where
  cls : TypeId
  attrs : List (String × AttrVal)
  deriving DecidableEq, Repr

/-- The wrapped factory produced by `_wrap` (`_container.py` lines 60-103):
for a class, the dynamically generated singleton subclass whose `__new__`
memoizes the one eagerly built instance `i`; for a non-class callable, the
`functools.partial(obj, **kwargs)` object, which holds no cached result. -/
inductive Factory where
  | clsSingleton (t : TypeId) (i : Nat)
  | fnWrap (t : TypeId) (kwargs : List (String × AttrVal))
  deriving DecidableEq, Repr

/-- `Dependency` (`_container.py` lines 10-13): the wrapped factory plus the
already-materialized instance, if any. -/
structure Dep where
  object : Factory
  inst : Option Nat
  deriving DecidableEq, Repr

/-- The binding table `self.bindings : dict[type, type]`. -/
abbrev Bindings := List (TypeId × TypeId)

/-- First-match association lookup, the model of `dict.get`. -/
def lookupB : Bindings → TypeId → Option TypeId
  | [], _ => none
  | (k, v) :: rest, t => if t = k then some v else lookupB rest t

/-- `dict` merge `b | m`: entries of `m` win.  Modeled by prepending the
overriding entries to a first-match association list. -/
def mergeB (b m : Bindings) : Bindings := m ++ b

/-- `self.bindings.get(obj, obj)`: one binding lookup, identity on miss
(`_injector.py` line 271). -/
def resolve (b : Bindings) (t : TypeId) : TypeId := (lookupB b t).getD t

/-- `DependencyInjector._unwrap_type_hint` (`_injector.py` lines 269-271):
strip the null union, then apply the binding table once. -/
def unwrap_type_hint (b : Bindings) (h : HintShape) : TypeId :=
  resolve b (get_cls_from_optional h)

/-- The mutable state of a `DependencyInjector` plus the Python heap:
the binding table, the `SingletonDependencyContainer`'s insertion-ordered
dict (`self._deps._deps`), the postponed list from `lazy_inject`, and the
allocation heap giving each constructed instance its identity. -/
structure St where
  bindings : Bindings
  deps : List (TypeId × Dep)
  postponed : List TypeId
  heap : List HeapObj
  deriving DecidableEq, Repr

/-- A freshly constructed `DependencyInjector()` with no bindings. -/
def St.start : St := { bindings := [], deps := [], postponed := [], heap := [] }

/-- First-match lookup in the container's dict. -/
def depLookup : List (TypeId × Dep) → TypeId → Option Dep
  | [], _ => none
  | (k, d) :: rest, t => if t = k then some d else depLookup rest t

/-- `SingletonDependencyContainer.get` / `_get` (`_container.py` lines
41-43, 55-57): return the stored wrapped factory, if any. -/
def containerGet (s : St) (t : TypeId) : Option Factory :=
  (depLookup s.deps t).map (fun d => d.object)

/-- Constructing `obj(**kwargs)`: raises `TypeError` when required
arguments are missing (per `TargetInfo.ctorRaisesTypeError`), otherwise
allocates a fresh instance at the next heap index. -/
def construct (env : Env) (t : TypeId) (kwargs : List (String × AttrVal)) (s : St) :
    Except PyErr (Nat × St) :=
  if (env t).ctorRaisesTypeError then .error .typeError
  else .ok (s.heap.length, { s with heap := s.heap ++ [⟨t, kwargs⟩] })

/-- Invoking a wrapped factory: the singleton class wrapper returns its
memoized instance (`__new__`, `_container.py` lines 67-74); the
`functools.partial` wrapper invokes the underlying callable again on every
call (`_container.py` lines 61-63). -/
def callFactory (env : Env) (f : Factory) (s : St) : Except PyErr (Nat × St) :=
  match f with
  | .clsSingleton _ i => .ok (i, s)
  | .fnWrap t kwargs => construct env t kwargs s

/-- `SingletonDependencyContainer.add` (`_container.py` lines 21-39):
return the existing wrapped factory if the key is present; otherwise wrap,
eagerly build the instance when the target is a class (`wrapped()` fills
the singleton memo), store the `Dependency`, and return the wrapper.  In
this sequential model the second check-under-lock coincides with the
first. -/
def containerAdd (env : Env) (obj : TypeId) (kwargs : List (String × AttrVal)) (s : St) :
    Except PyErr (Factory × St) :=
  match depLookup s.deps obj with
  | some d => .ok (d.object, s)
  | none =>
    if (env obj).isClass then
      match construct env obj kwargs s with
      | .error e => .error e
      | .ok (i, s') =>
        .ok (Factory.clsSingleton obj i,
          { s' with deps := s'.deps ++ [(obj, ⟨Factory.clsSingleton obj i, some i⟩)] })
    else
      .ok (Factory.fnWrap obj kwargs,
        { s with deps := s.deps ++ [(obj, ⟨Factory.fnWrap obj kwargs, none⟩)] })

/-! ### `DependencyInjector.inspect` (`_injector.py` lines 108-139) -/

/-- The classification loop of `inspect` (lines 123-134): for each
parameter, unwrap and rebind the hint; an injector-typed hint becomes
`injector_arg`; a hint that is neither connectable nor force-marked goes to
`kwargs`; otherwise it goes to `deps`.  The force-mark is read from the
original annotation (`hints_with_extras`), the connectable check from the
unwrapped, rebound hint; `is_connectable` may raise, which propagates. -/
def classifyParams (env : Env) (b : Bindings) : List Param → Sig → Except PyErr Sig
  | [], sig => .ok sig
  | p :: rest, sig =>
    if (env (unwrap_type_hint b p.hint.shape)).isInjectorSubclass then
      classifyParams env b rest { sig with injector_arg := some p.name }
    else
      match is_connectable env (unwrap_type_hint b p.hint.shape) with
      | .error e => .error e
      | .ok conn =>
        if !conn && !p.hint.forcedInjectable then
          classifyParams env b rest
            { sig with kwargs := sig.kwargs ++ [(p.name, unwrap_type_hint b p.hint.shape)] }
        else
          classifyParams env b rest
            { sig with deps := sig.deps ++ [(p.name, unwrap_type_hint b p.hint.shape)] }

/-- The body of `inspect`'s `try` block (lines 109-134): fetch hints via the
repository's `get_type_hints` wrapper; with no hints, return a signature
whose flag is `bool(is_connectable(obj))`; otherwise classify every
parameter. -/
def inspectBody (env : Env) (b : Bindings) (t : TypeId) : Except PyErr Sig :=
  match get_type_hints env t with
  | .error e => .error e
  | .ok hints =>
    if hints.isEmpty then
      match is_connectable env t with
      | .error e => .error e
      | .ok conn => .ok { obj := t, is_injectable := conn }
    else
      match is_connectable env t with
      | .error e => .error e
      | .ok conn => classifyParams env b hints { obj := t, is_injectable := conn }

/-- `inspect` (lines 108-139): any exception escaping the body is re-raised
as `InspectionError(obj)` chained `from` the original exception. -/
def inspect (env : Env) (b : Bindings) (t : TypeId) : Except InspErr Sig :=
  match inspectBody env b t with
  | .ok sig => .ok sig
  | .error e => .error ⟨t, e⟩

/-! ### `DependencyInjector.inject` (`_injector.py` lines 78-106) -/

/-- Exceptions escaping `inject`: `InspectionError` from `inspect`,
`InjectionError` from a `TypeError` during registration/construction
(lines 103-106), any other exception uncaught; `fuel` is the model's
bound on recursion depth (Python would recurse without bound). -/
inductive InjErr where
  | fuel
  | inspection (e : InspErr)
  | injection (obj : TypeId) (sig : Sig)
  | uncaught (e : PyErr)
  deriving DecidableEq, Repr

/-- The dependency loop of `inject` (lines 96-98): for every entry of
`signature.deps`, recursively inject it and immediately invoke the
resulting factory (`self.inject(dep)()`), accumulating `clients`.
`inj` is the recursive call at the remaining fuel. -/
def injectDepsWith (env : Env) (inj : TypeId → St → Except InjErr (Factory × St)) :
    List (String × TypeId) → St → Except InjErr (List (String × AttrVal) × St)
  | [], s => .ok ([], s)
  | (nm, ty) :: rest, s =>
    match inj ty s with
    | .error e => .error e
    | .ok (f, s₁) =>
      match callFactory env f s₁ with
      | .error e => .error (.uncaught e)
      | .ok (i, s₂) =>
        match injectDepsWith env inj rest s₂ with
        | .error e => .error e
        | .ok (cl, s₃) => .ok ((nm, AttrVal.inst i) :: cl, s₃)

/-- `inject` (lines 78-106): resolve the target against the binding table,
return the registered factory on a container hit, otherwise inspect,
recursively build all sub-dependency instances, append the injector itself
for an `injector_arg` slot, and register through the container; a
`TypeError` there becomes `InjectionError(obj, signature)`. -/
def injectF (env : Env) : Nat → TypeId → St → Except InjErr (Factory × St)
  | 0, _, _ => .error .fuel
  | fuel + 1, obj₀, s =>
    match containerGet s (resolve s.bindings obj₀) with
    | some f => .ok (f, s)
    | none =>
      match inspect env s.bindings (resolve s.bindings obj₀) with
      | .error e => .error (.inspection e)
      | .ok sig =>
        match injectDepsWith env (fun ty st => injectF env fuel ty st) sig.deps s with
        | .error e => .error e
        | .ok (clients, s₁) =>
          match containerAdd env (resolve s.bindings obj₀)
              (match sig.injector_arg with
                | some nm => clients ++ [(nm, AttrVal.injectorSelf)]
                | none => clients) s₁ with
          | .ok r => .ok r
          | .error .typeError => .error (.injection (resolve s.bindings obj₀) sig)
          | .error e => .error (.uncaught e)

/-! ### Lifecycle (`_injector.py` lines 141-176, `_container.py` lines 45-53) -/

/-- The class of a constructed instance. -/
def instCls (s : St) (i : Nat) : Option TypeId :=
  (s.heap.get? i).map (fun h => h.cls)

/-- `bool(dep.instance)` for a materialized instance. -/
def truthyInst (env : Env) (s : St) (i : Nat) : Bool :=
  match s.heap.get? i with
  | some h => (env h.cls).instanceTruthy
  | none => false

/-- `SingletonDependencyContainer.iter_instances` (`_container.py` lines
45-53): snapshot the dict in insertion (or reversed) order and yield
`(dep.object, dep.instance)` for every dependency whose stored instance is
truthy (`if dep.instance:`), skipping `None` and falsy instances alike. -/
def iter_instances (env : Env) (s : St) (reverse : Bool) : List (Factory × Nat) :=
  (if reverse then s.deps.reverse else s.deps).filterMap fun kd =>
    match kd.2.inst with
    | some i => if truthyInst env s i then some (kd.2.object, i) else none
    | none => none

/-- `is_connectable(instance)` for a constructed instance:
`issubclass(instance, ...)` raises `TypeError` (caught, `False`), and the
runtime-protocol `isinstance` answers whether the instance's class carries
the lifecycle methods. -/
def is_connectable_inst (env : Env) (s : St) (i : Nat) : Bool :=
  match instCls s i with
  | some c => (env c).hasLifecycleMethods
  | none => false

/-- Observable lifecycle events: a connect hook awaited, a disconnect hook
awaited successfully, a disconnect hook that raised (caught and logged by
`self.logger.exception`). -/
inductive Event where
  | connected (cls : TypeId)
  | disconnected (cls : TypeId)
  | disconnectFailed (cls : TypeId)
  deriving DecidableEq, Repr

/-- The class an event talks about. -/
def eventCls : Event → TypeId
  | .connected c => c
  | .disconnected c => c
  | .disconnectFailed c => c

/-- The hook loop of `connect` (lines 151-154): await `__connect__` on every
connectable instance in order; a raising hook propagates immediately
(fail-fast), returning `false` with the events awaited so far. -/
def runConnectHooks (env : Env) (s : St) : List (Factory × Nat) → List Event × Bool
  | [] => ([], true)
  | (_, i) :: rest =>
    match instCls s i with
    | none => runConnectHooks env s rest
    | some c =>
      if (env c).hasLifecycleMethods then
        if (env c).connectHookFails then ([], false)
        else
          match runConnectHooks env s rest with
          | (evs, ok) => (Event.connected c :: evs, ok)
      else runConnectHooks env s rest

/-- The first phase of `connect` (lines 146-149): for every postponed
target (a copy of the list), force materialization via `inject`. -/
def injectPostponed (env : Env) (fuel : Nat) : List TypeId → St → Except InjErr St
  | [], s => .ok s
  | t :: rest, s =>
    match injectF env fuel t s with
    | .error e => .error e
    | .ok (_, s') => injectPostponed env fuel rest s'

/-- `connect` (lines 141-154): inject all postponed targets, then await the
connect hooks over `iter_instances()` in registration order. -/
def connect (env : Env) (fuel : Nat) (s : St) :
    Except InjErr (List Event × Bool × St) :=
  match injectPostponed env fuel s.postponed s with
  | .error e => .error e
  | .ok s' =>
    match runConnectHooks env s' (iter_instances env s' false) with
    | (evs, ok) => .ok (evs, ok, s')

/-- The hook loop of `disconnect` (lines 160-165): await `__disconnect__` on
every connectable instance; a raising hook is caught and logged
(`disconnectFailed`) and iteration continues. -/
def runDisconnectHooks (env : Env) (s : St) : List (Factory × Nat) → List Event
  | [] => []
  | (_, i) :: rest =>
    match instCls s i with
    | none => runDisconnectHooks env s rest
    | some c =>
      if (env c).hasLifecycleMethods then
        (if (env c).disconnectHookFails then Event.disconnectFailed c
         else Event.disconnected c) :: runDisconnectHooks env s rest
      else runDisconnectHooks env s rest

/-- `disconnect` (lines 156-165): best-effort teardown over
`iter_instances(reverse=True)`; its total return type reflects that no hook
exception escapes it. -/
def disconnect (env : Env) (s : St) : List Event :=
  runDisconnectHooks env s (iter_instances env s true)

/-- `get_dependencies_by_interface` (lines 167-176): scan materialized
instances in registration order and keep those whose class satisfies the
interface (`safe_is_instance(instance, interface)` modeled as a class
predicate that the caller supplies). -/
def get_dependencies_by_interface (env : Env) (s : St) (iface : TypeId → Bool) :
    List Nat :=
  (iter_instances env s false).filterMap fun p =>
    match instCls s p.2 with
    | some c => if iface c then some p.2 else none
    | none => none

/-- `lazy_inject` (lines 191-219): record the target into the postponed
list.  (The returned memoizing closure performs `inject` on first call; the
claims concern the postponed registration and `connect`'s behaviour.) -/
def lazy_inject (s : St) (t : TypeId) : St :=
  { s with postponed := s.postponed ++ [t] }

/-! ### `bind` and `override` (`_injector.py` lines 221-267) -/

/-- `bind` (lines 221-245): merge new bindings, later entries winning. -/
def bind (s : St) (m : Bindings) : St :=
  { s with bindings := mergeB s.bindings m }

/-- The state `override` installs on entry (lines 255-260): a brand-new
empty `SingletonDependencyContainer` and `self.bindings | bindings`. -/
def overrideEntered (s : St) (m : Bindings) : St :=
  { s with deps := [], bindings := mergeB s.bindings m }

/-- `override` (lines 247-267): run the scope body on the swapped-in state
and restore the saved container and bindings in the `finally` block.  The
body returns its `Except` outcome together with the state as left behind
(a Python exception does not roll mutations back); restoration happens on
both outcomes, which is exactly the `finally` semantics. -/
def withOverride {E α : Type} (s : St) (m : Bindings) (body : St → Except E α × St) :
    Except E α × St :=
  match body (overrideEntered s m) with
  | (r, s') => (r, { s' with deps := s.deps, bindings := s.bindings })

/-! ### Association-list and heap bookkeeping lemmas -/

theorem depLookup_mono {l l' : List (TypeId × Dep)} {k : TypeId} {d : Dep}
    (h : depLookup l k = some d) : depLookup (l ++ l') k = some d := by
  induction l with
  | nil => simp [depLookup] at h
  | cons x rest ih =>
    obtain ⟨a, b⟩ := x
    by_cases hk : k = a
    · simp only [depLookup, if_pos hk] at h
      simp only [List.cons_append, depLookup, if_pos hk]
      exact h
    · simp only [depLookup, if_neg hk] at h
      simp only [List.cons_append, depLookup, if_neg hk]
      exact ih h

theorem depLookup_append_self {l : List (TypeId × Dep)} {k : TypeId} (d : Dep)
    (h : depLookup l k = none) : depLookup (l ++ [(k, d)]) k = some d := by
  induction l with
  | nil => simp [depLookup]
  | cons x rest ih =>
    obtain ⟨a, b⟩ := x
    by_cases hk : k = a
    · simp only [depLookup, if_pos hk] at h
      cases h
    · simp only [depLookup, if_neg hk] at h
      simp only [List.cons_append, depLookup, if_neg hk]
      exact ih h

theorem depLookup_append_cases {l : List (TypeId × Dep)} {k₀ k : TypeId} {d₀ d : Dep}
    (h : depLookup (l ++ [(k₀, d₀)]) k = some d) :
    depLookup l k = some d ∨ (k = k₀ ∧ d = d₀) := by
  induction l with
  | nil =>
    by_cases hk : k = k₀
    · simp only [List.nil_append, depLookup, if_pos hk] at h
      cases h
      exact Or.inr ⟨hk, rfl⟩
    · simp only [List.nil_append, depLookup, if_neg hk] at h
      cases h
  | cons x rest ih =>
    obtain ⟨a, b⟩ := x
    by_cases hk : k = a
    · simp only [List.cons_append, depLookup, if_pos hk] at h
      exact Or.inl (by simp only [depLookup, if_pos hk]; exact h)
    · simp only [List.cons_append, depLookup, if_neg hk] at h
      rcases ih h with hl | hr
      · exact Or.inl (by simp only [depLookup, if_neg hk]; exact hl)
      · exact Or.inr hr

theorem depLookup_mem {l : List (TypeId × Dep)} {k : TypeId} {d : Dep}
    (h : depLookup l k = some d) : (k, d) ∈ l := by
  induction l with
  | nil => simp [depLookup] at h
  | cons x rest ih =>
    obtain ⟨a, b⟩ := x
    by_cases hk : k = a
    · simp only [depLookup, if_pos hk] at h
      cases h
      rw [hk]
      exact List.mem_cons_self _ _
    · simp only [depLookup, if_neg hk] at h
      exact List.mem_cons_of_mem _ (ih h)

theorem get?_append_some {α : Type} {l l' : List α} {i : Nat} {a : α}
    (h : l.get? i = some a) : (l ++ l').get? i = some a := by
  induction l generalizing i with
  | nil => simp [List.get?] at h
  | cons x rest ih =>
    cases i with
    | zero => simpa using h
    | succ j => simpa using ih (by simpa using h)

theorem get?_concat_self {α : Type} (l : List α) (a : α) :
    (l ++ [a]).get? l.length = some a := by
  induction l with
  | nil => rfl
  | cons x rest ih => simp only [List.cons_append, List.length_cons, List.get?]; exact ih

/-! ### Invariants of the injector state -/

/-- Container entries are never removed or replaced. -/
def DepsLe (s s' : St) : Prop :=
  ∀ k d, depLookup s.deps k = some d → depLookup s'.deps k = some d

/-- The heap only grows by allocation at the end. -/
def HeapLe (s s' : St) : Prop := ∃ ext, s'.heap = s.heap ++ ext

/-- Well-formedness of the container: every entry stored at a class key
holds the singleton class wrapper with its eagerly built, memoized
instance, and that instance is an object of the key class. -/
def WF (env : Env) (s : St) : Prop :=
  ∀ k d, depLookup s.deps k = some d → (env k).isClass = true →
    ∃ i, d.object = Factory.clsSingleton k i ∧ d.inst = some i ∧
      ∃ h, s.heap.get? i = some h ∧ h.cls = k

/-- What every successful injector operation guarantees about the state
transition: bindings and the postponed list are untouched, the heap only
grows, container entries persist, and well-formedness is preserved. -/
def StepOk (env : Env) (s s' : St) : Prop :=
  s'.bindings = s.bindings ∧ s'.postponed = s.postponed ∧ HeapLe s s' ∧
    DepsLe s s' ∧ (WF env s → WF env s')

theorem StepOk.refl (env : Env) (s : St) : StepOk env s s :=
  ⟨rfl, rfl, ⟨[], by simp⟩, fun _ _ h => h, fun h => h⟩

theorem StepOk.trans {env : Env} {s₁ s₂ s₃ : St}
    (h : StepOk env s₁ s₂) (h' : StepOk env s₂ s₃) : StepOk env s₁ s₃ := by
  obtain ⟨hb, hp, ⟨e, he⟩, hd, hw⟩ := h
  obtain ⟨hb', hp', ⟨e', he'⟩, hd', hw'⟩ := h'
  exact ⟨hb'.trans hb, hp'.trans hp, ⟨e ++ e', by rw [he', he, List.append_assoc]⟩,
    fun k d hk => hd' k d (hd k d hk), fun hwf => hw' (hw hwf)⟩

theorem WF_of_deps_nil (env : Env) (s : St) (h : s.deps = []) : WF env s := by
  intro k d hk
  rw [h] at hk
  simp [depLookup] at hk

theorem WF_heap_ext {env : Env} {s s' : St} (hwf : WF env s)
    (hd : s'.deps = s.deps) (hh : HeapLe s s') : WF env s' := by
  intro k d hk hcls
  rw [hd] at hk
  obtain ⟨i, ho, hi, hobj, hget, hc⟩ := hwf k d hk hcls
  obtain ⟨ext, he⟩ := hh
  exact ⟨i, ho, hi, hobj, by rw [he]; exact get?_append_some hget, hc⟩

theorem construct_ok {env : Env} {t : TypeId} {kw : List (String × AttrVal)}
    {s : St} {i : Nat} {s' : St} (h : construct env t kw s = .ok (i, s')) :
    i = s.heap.length ∧ s'.heap = s.heap ++ [⟨t, kw⟩] ∧ s'.deps = s.deps ∧
      s'.bindings = s.bindings ∧ s'.postponed = s.postponed := by
  unfold construct at h
  split at h
  · cases h
  · cases h
    exact ⟨rfl, rfl, rfl, rfl, rfl⟩

theorem construct_stepOk {env : Env} {t : TypeId} {kw : List (String × AttrVal)}
    {s : St} {i : Nat} {s' : St} (h : construct env t kw s = .ok (i, s')) :
    StepOk env s s' := by
  obtain ⟨_, hh, hd, hb, hp⟩ := construct_ok h
  exact ⟨hb, hp, ⟨[⟨t, kw⟩], hh⟩, fun k d hk => by rw [hd]; exact hk,
    fun hwf => WF_heap_ext hwf hd ⟨[⟨t, kw⟩], hh⟩⟩

theorem callFactory_stepOk {env : Env} {f : Factory} {s : St} {i : Nat} {s' : St}
    (h : callFactory env f s = .ok (i, s')) : StepOk env s s' := by
  cases f with
  | clsSingleton t j =>
    cases h
    exact StepOk.refl env s
  | fnWrap t kw => exact construct_stepOk h

theorem containerAdd_spec {env : Env} {obj : TypeId} {kw : List (String × AttrVal)}
    {s : St} {f : Factory} {s' : St} (h : containerAdd env obj kw s = .ok (f, s')) :
    StepOk env s s' ∧ ∃ d, depLookup s'.deps obj = some d ∧ d.object = f := by
  cases h0 : depLookup s.deps obj with
  | some d =>
    simp only [containerAdd, h0] at h
    cases h
    exact ⟨StepOk.refl env s, d, h0, rfl⟩
  | none =>
    cases hcls : (env obj).isClass with
    | true =>
      cases hc : construct env obj kw s with
      | error e =>
        simp only [containerAdd, h0, hcls, if_true, hc] at h
        exact Except.noConfusion h
      | ok r =>
        obtain ⟨i, s₁⟩ := r
        simp only [containerAdd, h0, hcls, if_true, hc, Except.ok.injEq, Prod.mk.injEq] at h
        obtain ⟨hf, hs⟩ := h
        subst hf
        subst hs
        obtain ⟨hi, hh, hd, hb, hp⟩ := construct_ok hc
        have hd0 : depLookup s₁.deps obj = none := by rw [hd]; exact h0
        refine ⟨⟨hb, hp, ⟨[⟨obj, kw⟩], by simp only []; rw [hh]⟩, ?_, ?_⟩,
          ⟨Factory.clsSingleton obj i, some i⟩, depLookup_append_self _ hd0, rfl⟩
        · intro k d hk
          exact depLookup_mono (by rw [hd]; exact hk)
        · intro hwf k d hk hkcls
          rcases depLookup_append_cases hk with hold | ⟨hkeq, hdeq⟩
          · rw [hd] at hold
            obtain ⟨j, ho, hj, hobj, hget, hcj⟩ := hwf k d hold hkcls
            refine ⟨j, ho, hj, hobj, ?_, hcj⟩
            show (St.heap _).get? j = some hobj
            rw [hh]
            exact get?_append_some hget
          · subst hdeq
            rw [hkeq]
            refine ⟨i, rfl, rfl, ⟨obj, kw⟩, ?_, rfl⟩
            show (St.heap _).get? i = some _
            rw [hh, hi]
            exact get?_concat_self s.heap ⟨obj, kw⟩
    | false =>
      simp only [containerAdd, h0, hcls, if_false, Bool.false_eq_true,
        Except.ok.injEq, Prod.mk.injEq] at h
      obtain ⟨hf, hs⟩ := h
      subst hf
      subst hs
      refine ⟨⟨rfl, rfl, ⟨[], by simp⟩, ?_, ?_⟩,
        ⟨Factory.fnWrap obj kw, none⟩, depLookup_append_self _ h0, rfl⟩
      · intro k d hk
        exact depLookup_mono hk
      · intro hwf k d hk hkc
        rcases depLookup_append_cases hk with hold | ⟨hkeq, hdeq⟩
        · exact hwf k d hold hkc
        · subst hkeq
          rw [hcls] at hkc
          cases hkc

theorem injectDepsWith_stepOk (env : Env)
    (inj : TypeId → St → Except InjErr (Factory × St))
    (hinj : ∀ t s f s', inj t s = .ok (f, s') → StepOk env s s') :
    ∀ (l : List (String × TypeId)) (s : St) (cl : List (String × AttrVal)) (s' : St),
      injectDepsWith env inj l s = .ok (cl, s') → StepOk env s s' := by
  intro l
  induction l with
  | nil =>
    intro s cl s' h
    simp only [injectDepsWith] at h
    cases h
    exact StepOk.refl env s
  | cons x rest ih =>
    intro s cl s' h
    obtain ⟨nm, ty⟩ := x
    cases h1 : inj ty s with
    | error e =>
      simp only [injectDepsWith, h1] at h
      exact Except.noConfusion h
    | ok r =>
      obtain ⟨f, s₁⟩ := r
      cases h2 : callFactory env f s₁ with
      | error e =>
        simp only [injectDepsWith, h1, h2] at h
        exact Except.noConfusion h
      | ok r₂ =>
        obtain ⟨i, s₂⟩ := r₂
        cases h3 : injectDepsWith env inj rest s₂ with
        | error e =>
          simp only [injectDepsWith, h1, h2, h3] at h
          exact Except.noConfusion h
        | ok r₃ =>
          obtain ⟨cl₃, s₃⟩ := r₃
          simp only [injectDepsWith, h1, h2, h3, Except.ok.injEq, Prod.mk.injEq] at h
          obtain ⟨-, hs⟩ := h
          subst hs
          exact ((hinj ty s f s₁ h1).trans (callFactory_stepOk h2)).trans
            (ih s₂ cl₃ s₃ h3)

theorem injectF_spec (env : Env) :
    ∀ (fuel : Nat) (t : TypeId) (s : St) (f : Factory) (s' : St),
      injectF env fuel t s = .ok (f, s') →
      StepOk env s s' ∧
        ∃ d, depLookup s'.deps (resolve s.bindings t) = some d ∧ d.object = f := by
  intro fuel
  induction fuel with
  | zero =>
    intro t s f s' h
    exact Except.noConfusion h
  | succ fuel ih =>
    intro t s f s' h
    cases hg : containerGet s (resolve s.bindings t) with
    | some f₀ =>
      simp only [injectF, hg] at h
      cases h
      refine ⟨StepOk.refl env s, ?_⟩
      cases hd : depLookup s.deps (resolve s.bindings t) with
      | none =>
        simp only [containerGet, hd, Option.map] at hg
        exact Option.noConfusion hg
      | some d =>
        simp only [containerGet, hd, Option.map] at hg
        cases hg
        exact ⟨d, rfl, rfl⟩
    | none =>
      cases hi : inspect env s.bindings (resolve s.bindings t) with
      | error e =>
        simp only [injectF, hg, hi] at h
        exact Except.noConfusion h
      | ok sig =>
        cases hdeps : injectDepsWith env (fun ty st => injectF env fuel ty st)
            sig.deps s with
        | error e =>
          simp only [injectF, hg, hi, hdeps] at h
          exact Except.noConfusion h
        | ok r =>
          obtain ⟨cl, s₁⟩ := r
          have hstep1 : StepOk env s s₁ :=
            injectDepsWith_stepOk env _
              (fun t' s'' f'' s''' hh => (ih t' s'' f'' s''' hh).1)
              sig.deps s cl s₁ hdeps
          cases ha : containerAdd env (resolve s.bindings t)
              (match sig.injector_arg with
                | some nm => cl ++ [(nm, AttrVal.injectorSelf)]
                | none => cl) s₁ with
          | ok r₂ =>
            obtain ⟨f₂, s₂⟩ := r₂
            simp only [injectF, hg, hi, hdeps, ha] at h
            cases h
            obtain ⟨hstep2, d, hld, hdo⟩ := containerAdd_spec ha
            exact ⟨hstep1.trans hstep2, d, hld, hdo⟩
          | error e =>
            cases e <;> simp only [injectF, hg, hi, hdeps, ha] at h <;>
              exact Except.noConfusion h

/-- Commonly used description of a well-behaved connectable class with the
given reflected parameters. -/
def plainClassInfo (params : List Param) : TargetInfo :=
  { isClass := true, rawHints := .ok params, subclassCheck := .ok true,
    instanceCheck := .ok true, hasLifecycleMethods := true,
    isInjectorSubclass := false, ctorRaisesTypeError := false,
    connectHookFails := false, disconnectHookFails := false,
    instanceTruthy := true }

/-- An environment with a single well-behaved connectable class with no
dependencies at every type identity. -/
def envBasic : Env := fun _ => plainClassInfo []

/-- The injector state after `inject`-ing class `0` from a fresh injector
under `envBasic`. -/
def stBasic : St :=
  { bindings := [], deps := [(0, ⟨Factory.clsSingleton 0 0, some 0⟩)],
    postponed := [], heap := [⟨0, []⟩] }

/-- C1: repeated calls of `inject` on the same resolved type return the
identical wrapped factory object (and leave the state untouched), and for a
class target — the spec's "for all types T" — invoking that factory
repeatedly returns the identical memoized instance, so
`inject(T)() is inject(T)()`. -/
theorem inject_idempotent_singleton (env : Env) (fuel₁ fuel₂ : Nat) (t : TypeId)
    (s : St) (f₁ f₂ : Factory) (s₁ s₂ : St) (hWF : WF env s)
    (h₁ : injectF env fuel₁ t s = .ok (f₁, s₁))
    (h₂ : injectF env fuel₂ t s₁ = .ok (f₂, s₂)) :
    f₂ = f₁ ∧ s₂ = s₁ ∧
      ((env (resolve s.bindings t)).isClass = true →
        ∃ i, callFactory env f₁ s₁ = .ok (i, s₁) ∧
          callFactory env f₂ s₂ = .ok (i, s₂)) := by
  obtain ⟨⟨hb, hp, hh, hdl, hwfp⟩, d, hld, hobj⟩ := injectF_spec env fuel₁ t s f₁ s₁ h₁
  cases fuel₂ with
  | zero => exact Except.noConfusion h₂
  | succ g =>
    have hget : containerGet s₁ (resolve s₁.bindings t) = some f₁ := by
      rw [hb]
      simp only [containerGet, hld, Option.map, hobj]
    simp only [injectF, hget, Except.ok.injEq, Prod.mk.injEq] at h₂
    obtain ⟨hf, hs⟩ := h₂
    refine ⟨hf.symm, hs.symm, ?_⟩
    intro hcls
    obtain ⟨i, ho, _, _⟩ := hwfp hWF _ _ hld hcls
    refine ⟨i, ?_, ?_⟩
    · rw [← hobj, ho]
      rfl
    · rw [hf.symm, ← hobj, ho, hs.symm]
      rfl

/-- C1 witness: injecting class `0` twice from a fresh injector yields the
same singleton factory, and both factory invocations return instance `0`. -/
theorem inject_idempotent_singleton_witness :
    WF envBasic St.start ∧
    injectF envBasic 1 0 St.start = .ok (Factory.clsSingleton 0 0, stBasic) ∧
    injectF envBasic 1 0 stBasic = .ok (Factory.clsSingleton 0 0, stBasic) ∧
    (Factory.clsSingleton 0 0 = Factory.clsSingleton 0 0 ∧ stBasic = stBasic ∧
      ((envBasic (resolve St.start.bindings 0)).isClass = true →
        ∃ i, callFactory envBasic (Factory.clsSingleton 0 0) stBasic = .ok (i, stBasic) ∧
          callFactory envBasic (Factory.clsSingleton 0 0) stBasic = .ok (i, stBasic))) :=
  ⟨WF_of_deps_nil envBasic St.start rfl, rfl, rfl,
    inject_idempotent_singleton envBasic 1 1 0 St.start _ _ _ _
      (WF_of_deps_nil envBasic St.start rfl) rfl rfl⟩

/-! ### C8: totality of `is_connectable` -/

/-- An object whose `issubclass` comparison against the protocol fails with
a non-`TypeError` exception (e.g. a metaclass `__subclasscheck__` raising
`ValueError`); `safe_is_subclass` catches only `TypeError`. -/
def envSubclassRaises : Env := fun _ =>
  { isClass := true, rawHints := .ok [], subclassCheck := .error .valueError,
    instanceCheck := .ok false, hasLifecycleMethods := false,
    isInjectorSubclass := false, ctorRaisesTypeError := false,
    connectHookFails := false, disconnectHookFails := false,
    instanceTruthy := true }

/-- C8 counterexample: `is_connectable` is not total over arbitrary inputs —
an input whose type comparison fails with `ValueError` propagates the
exception to the caller, because `safe_is_subclass` catches only
`TypeError`. -/
theorem is_connectable_propagates_cex :
    is_connectable envSubclassRaises 0 = .error PyErr.valueError := rfl

/-- C8 amended: `is_connectable` returns a result (and never propagates)
for every input whose type comparisons either succeed or fail with
`TypeError` — which covers all non-type values — and any `TypeError` is
treated as no match; but a comparison failing with a non-`TypeError`
exception propagates. -/
theorem is_connectable_typeerror_no_match (env : Env) (t : TypeId)
    (h1 : (env t).subclassCheck = .error PyErr.typeError ∨
      ∃ b, (env t).subclassCheck = .ok b)
    (h2 : (env t).instanceCheck = .error PyErr.typeError ∨
      ∃ b, (env t).instanceCheck = .ok b) :
    (∃ r, is_connectable env t = .ok r) ∧
      ((env t).subclassCheck = .error PyErr.typeError →
        (env t).instanceCheck = .error PyErr.typeError →
        is_connectable env t = .ok false) := by
  constructor
  · rcases h1 with h1 | ⟨b1, h1⟩
    · rcases h2 with h2 | ⟨b2, h2⟩
      · exact ⟨false, by simp [is_connectable, safe_is_subclass, safe_is_instance, h1, h2]⟩
      · exact ⟨b2, by simp [is_connectable, safe_is_subclass, safe_is_instance, h1, h2]⟩
    · cases b1 with
      | true => exact ⟨true, by simp [is_connectable, safe_is_subclass, h1]⟩
      | false =>
        rcases h2 with h2 | ⟨b2, h2⟩
        · exact ⟨false, by simp [is_connectable, safe_is_subclass, safe_is_instance, h1, h2]⟩
        · exact ⟨b2, by simp [is_connectable, safe_is_subclass, safe_is_instance, h1, h2]⟩
  · intro ha hb
    simp [is_connectable, safe_is_subclass, safe_is_instance, ha, hb]

/-- An object on which both protocol comparisons raise `TypeError`
(e.g. a non-type value). -/
def envBothTypeError : Env := fun _ =>
  { isClass := false, rawHints := .ok [], subclassCheck := .error .typeError,
    instanceCheck := .error .typeError, hasLifecycleMethods := false,
    isInjectorSubclass := false, ctorRaisesTypeError := false,
    connectHookFails := false, disconnectHookFails := false,
    instanceTruthy := true }

/-- C8 witness: a non-type value raising `TypeError` on both comparisons is
reported as not connectable, without an exception. -/
theorem is_connectable_typeerror_no_match_witness :
    (envBothTypeError 0).subclassCheck = .error PyErr.typeError ∧
    (envBothTypeError 0).instanceCheck = .error PyErr.typeError ∧
    is_connectable envBothTypeError 0 = .ok false :=
  ⟨rfl, rfl,
    (is_connectable_typeerror_no_match envBothTypeError 0
      (Or.inl rfl) (Or.inl rfl)).2 rfl rfl⟩

/-! ### C9: inspection failures -/

/-- A target for which `typing.get_type_hints` raises `TypeError`
(e.g. an object that is not a module, class, method or function). -/
def envHintTypeError : Env := fun _ =>
  { isClass := false, rawHints := .error .typeError, subclassCheck := .ok false,
    instanceCheck := .ok false, hasLifecycleMethods := false,
    isInjectorSubclass := false, ctorRaisesTypeError := false,
    connectHookFails := false, disconnectHookFails := false,
    instanceTruthy := true }

/-- C9 counterexample: a target whose type-hint computation fails with
`TypeError` does NOT surface an inspection failure — the repository's
`get_type_hints` wrapper swallows the `TypeError` into an empty hint dict
and `inspect` returns a successful empty `Signature`. -/
theorem inspect_swallows_typeerror_cex :
    inspect envHintTypeError [] 0 =
      .ok { obj := 0, is_injectable := false, deps := [], kwargs := [],
            injector_arg := none } := rfl

/-- C9 amended: a failure of type-hint computation with any exception other
than `TypeError`, and a capability-check failure with any exception other
than `TypeError`, are wrapped and re-raised as an inspection failure
carrying the original target and the original exception; but a `TypeError`
during hint extraction is swallowed into a successful empty `Signature`. -/
theorem inspect_wraps_non_typeerror (env : Env) (b : Bindings) (t : TypeId)
    (e : PyErr) (hne : e ≠ PyErr.typeError) :
    ((env t).rawHints = .error e → inspect env b t = .error ⟨t, e⟩) ∧
    ((env t).rawHints = .ok [] → (env t).subclassCheck = .error e →
      inspect env b t = .error ⟨t, e⟩) := by
  constructor
  · intro h
    cases e <;> simp_all [inspect, inspectBody, get_type_hints]
  · intro h1 h2
    cases e <;>
      simp_all [inspect, inspectBody, get_type_hints, is_connectable, safe_is_subclass]

/-- A target whose type-hint computation raises `NameError` (an
unresolvable forward reference). -/
def envHintNameError : Env := fun _ =>
  { isClass := true, rawHints := .error .nameError, subclassCheck := .ok false,
    instanceCheck := .ok false, hasLifecycleMethods := false,
    isInjectorSubclass := false, ctorRaisesTypeError := false,
    connectHookFails := false, disconnectHookFails := false,
    instanceTruthy := true }

/-- C9 witness: a `NameError` during hint extraction surfaces as an
inspection failure wrapping the target and the cause. -/
theorem inspect_wraps_non_typeerror_witness :
    (envHintNameError 0).rawHints = .error PyErr.nameError ∧
    inspect envHintNameError [] 0 = .error ⟨0, PyErr.nameError⟩ :=
  ⟨rfl,
    (inspect_wraps_non_typeerror envHintNameError [] 0 PyErr.nameError
      (by simp)).1 rfl⟩

/-! ### C10: truthiness filtering in `iter_instances` -/

/-- C10: `iter_instances` yields an entry only when its stored instance is
truthy — `None` and falsy instances alike are skipped — and consequently a
falsy instance is never visited by the forward or reverse iteration nor by
`get_dependencies_by_interface` (and hence not by `connect`/`disconnect`,
which iterate exactly these lists). -/
theorem iter_instances_truthy_only (env : Env) (s : St) :
    (∀ (rev : Bool) (p : Factory × Nat), p ∈ iter_instances env s rev →
      truthyInst env s p.2 = true) ∧
    (∀ i : Nat, truthyInst env s i = false →
      (∀ (rev : Bool) (p : Factory × Nat), p ∈ iter_instances env s rev → p.2 ≠ i) ∧
      (∀ iface : TypeId → Bool, i ∉ get_dependencies_by_interface env s iface)) := by
  have key : ∀ (rev : Bool) (p : Factory × Nat), p ∈ iter_instances env s rev →
      truthyInst env s p.2 = true := by
    intro rev p hp
    simp only [iter_instances, List.mem_filterMap] at hp
    obtain ⟨kd, -, hf⟩ := hp
    cases h2 : kd.2.inst with
    | none =>
      simp only [h2] at hf
      exact Option.noConfusion hf
    | some j =>
      simp only [h2] at hf
      by_cases ht : truthyInst env s j = true
      · rw [if_pos ht] at hf
        cases hf
        exact ht
      · rw [if_neg ht] at hf
        cases hf
  refine ⟨key, ?_⟩
  intro i hfalse
  constructor
  · intro rev p hp hpi
    rw [← hpi] at hfalse
    rw [key rev p hp] at hfalse
    cases hfalse
  · intro iface hmem
    simp only [get_dependencies_by_interface, List.mem_filterMap] at hmem
    obtain ⟨p, hp, hf⟩ := hmem
    cases hc : instCls s p.2 with
    | none =>
      simp only [hc] at hf
      exact Option.noConfusion hf
    | some c =>
      simp only [hc] at hf
      by_cases hi : iface c = true
      · rw [if_pos hi] at hf
        cases hf
        rw [key false p hp] at hfalse
        cases hfalse
      · rw [if_neg hi] at hf
        cases hf

/-- An environment whose instances are all falsy (`__bool__` returns
`False`). -/
def envFalsy : Env := fun _ =>
  { isClass := true, rawHints := .ok [], subclassCheck := .ok true,
    instanceCheck := .ok true, hasLifecycleMethods := true,
    isInjectorSubclass := false, ctorRaisesTypeError := false,
    connectHookFails := false, disconnectHookFails := false,
    instanceTruthy := false }

/-- A container holding one registered singleton whose instance is falsy. -/
def stFalsy : St :=
  { bindings := [], deps := [(0, ⟨Factory.clsSingleton 0 0, some 0⟩)],
    postponed := [], heap := [⟨0, []⟩] }

/-- C10 witness: the falsy registered instance `0` is skipped by
`iter_instances` and absent from `get_dependencies_by_interface`. -/
theorem iter_instances_truthy_only_witness :
    truthyInst envFalsy stFalsy 0 = false ∧
    iter_instances envFalsy stFalsy false = [] ∧
    iter_instances envFalsy stFalsy true = [] ∧
    0 ∉ get_dependencies_by_interface envFalsy stFalsy (fun _ => true) :=
  ⟨rfl, rfl, rfl,
    ((iter_instances_truthy_only envFalsy stFalsy).2 0 rfl).2 (fun _ => true)⟩

/-! ### C5: the non-class wrapper is not memoizing -/

/-- A plain (non-class) callable with no type hints, returning a freshly
allocated object on every call (e.g. `lambda: object()`). -/
def envFn : Env := fun _ =>
  { isClass := false, rawHints := .ok [], subclassCheck := .ok false,
    instanceCheck := .ok false, hasLifecycleMethods := false,
    isInjectorSubclass := false, ctorRaisesTypeError := false,
    connectHookFails := false, disconnectHookFails := false,
    instanceTruthy := true }

/-- The container state after `add`-ing the non-class callable `0`:
a `functools.partial` wrapper is stored, and no instance is built. -/
def stFn : St :=
  { bindings := [], deps := [(0, ⟨Factory.fnWrap 0 [], none⟩)],
    postponed := [], heap := [] }

/-- The states after the first and second invocation of the wrapper. -/
def stFn1 : St := { stFn with heap := [⟨0, []⟩] }

/-- The state after the second invocation of the wrapper. -/
def stFn2 : St := { stFn with heap := [⟨0, []⟩, ⟨0, []⟩] }

/-- C5 counterexample: the wrapper returned by
`SingletonDependencyContainer.add` for a non-class callable is a plain
`functools.partial`: its second invocation invokes the underlying callable
again and returns a different object (`1 ≠ 0`) instead of a cached
result. -/
theorem fn_wrapper_not_memoizing_cex :
    containerAdd envFn 0 [] St.start = .ok (Factory.fnWrap 0 [], stFn) ∧
    callFactory envFn (Factory.fnWrap 0 []) stFn = .ok (0, stFn1) ∧
    callFactory envFn (Factory.fnWrap 0 []) stFn1 = .ok (1, stFn2) ∧
    (1 : Nat) ≠ 0 :=
  ⟨rfl, rfl, rfl, by decide⟩

/-- C5 amended: for a non-class callable target, `add` builds no instance —
it stores and returns a bare partial-application wrapper — and that wrapper
re-invokes the underlying callable on every invocation: two successive
invocations yield distinct results (no caching; only the wrapper object
itself is memoized by the container). -/
theorem fn_wrapper_reinvokes (env : Env) (obj : TypeId)
    (kw : List (String × AttrVal)) (s : St)
    (hcls : (env obj).isClass = false) (habs : depLookup s.deps obj = none) :
    containerAdd env obj kw s =
      .ok (Factory.fnWrap obj kw,
        { s with deps := s.deps ++ [(obj, ⟨Factory.fnWrap obj kw, none⟩)] }) ∧
    (∀ s₁ i₁ s₂ i₂ s₃, callFactory env (Factory.fnWrap obj kw) s₁ = .ok (i₁, s₂) →
      callFactory env (Factory.fnWrap obj kw) s₂ = .ok (i₂, s₃) → i₂ ≠ i₁) := by
  constructor
  · simp [containerAdd, habs, hcls]
  · intro s₁ i₁ s₂ i₂ s₃ h1 h2
    obtain ⟨hi1, hh1, -, -, -⟩ := construct_ok h1
    obtain ⟨hi2, -, -, -, -⟩ := construct_ok h2
    rw [hi1, hi2, hh1]
    simp [List.length_append]

/-- C5 witness: the amended behaviour at the concrete callable `0`. -/
theorem fn_wrapper_reinvokes_witness :
    (envFn 0).isClass = false ∧ depLookup St.start.deps 0 = none ∧
    containerAdd envFn 0 [] St.start =
      .ok (Factory.fnWrap 0 [],
        { St.start with
            deps := St.start.deps ++ [(0, ⟨Factory.fnWrap 0 [], none⟩)] }) ∧
    (1 : Nat) ≠ 0 :=
  ⟨rfl, rfl, (fn_wrapper_reinvokes envFn 0 [] St.start rfl rfl).1,
    (fn_wrapper_reinvokes envFn 0 [] St.start rfl rfl).2 stFn 0 stFn1 1 stFn2 rfl rfl⟩

/-! ### C3: `override` restores container and bindings on every exit path -/

/-- C3: `override` swaps in an empty container and the merged bindings on
entry, and on every exit path — the body returning normally or raising —
the final state carries exactly the prior container and prior bindings, so
a new injection of a type registered before the scope hits the container
and returns the original wrapped factory, whose invocation returns the
original pre-scope instance. -/
theorem override_restores_prior_state {E α : Type} (env : Env) (s : St)
    (m : Bindings) (body : St → Except E α × St) (fuel : Nat) (t : TypeId)
    (f : Factory) (hpre : containerGet s (resolve s.bindings t) = some f) :
    (overrideEntered s m).deps = [] ∧
    (overrideEntered s m).bindings = mergeB s.bindings m ∧
    (withOverride s m body).2.deps = s.deps ∧
    (withOverride s m body).2.bindings = s.bindings ∧
    injectF env (fuel + 1) t (withOverride s m body).2 =
      .ok (f, (withOverride s m body).2) ∧
    (∀ c i, f = Factory.clsSingleton c i →
      callFactory env f (withOverride s m body).2 =
        .ok (i, (withOverride s m body).2)) := by
  cases hb : body (overrideEntered s m) with
  | mk r s' =>
    have hw : withOverride s m body =
        (r, { s' with deps := s.deps, bindings := s.bindings }) := by
      simp [withOverride, hb]
    rw [hw]
    refine ⟨rfl, rfl, rfl, rfl, ?_, ?_⟩
    · have hg : containerGet { s' with deps := s.deps, bindings := s.bindings }
          (resolve ({ s' with deps := s.deps, bindings := s.bindings }).bindings t) =
          some f := hpre
      simp only [injectF, hg]
    · intro c i hf
      subst hf
      rfl

/-- The scope body used by the C3 witness: it mutates the heap and exits by
raising. -/
def bodyRaise : St → Except Unit Unit × St := fun st =>
  (Except.error (), { st with heap := st.heap ++ [⟨5, []⟩] })

/-- C3 witness: after an exception exit of an `override` scope, the prior
container and bindings are restored and re-injection of class `0` returns
the original factory and original instance `0`. -/
theorem override_restores_prior_state_witness :
    containerGet stBasic (resolve stBasic.bindings 0) =
      some (Factory.clsSingleton 0 0) ∧
    (withOverride stBasic [(0, 1)] bodyRaise).2.deps = stBasic.deps ∧
    (withOverride stBasic [(0, 1)] bodyRaise).2.bindings = stBasic.bindings ∧
    injectF envBasic 1 0 (withOverride stBasic [(0, 1)] bodyRaise).2 =
      .ok (Factory.clsSingleton 0 0, (withOverride stBasic [(0, 1)] bodyRaise).2) ∧
    callFactory envBasic (Factory.clsSingleton 0 0)
        (withOverride stBasic [(0, 1)] bodyRaise).2 =
      .ok (0, (withOverride stBasic [(0, 1)] bodyRaise).2) := by
  have h := override_restores_prior_state (E := Unit) (α := Unit) envBasic stBasic
    [(0, 1)] bodyRaise 0 0 (Factory.clsSingleton 0 0) rfl
  exact ⟨rfl, h.2.2.1, h.2.2.2.1, h.2.2.2.2.1, h.2.2.2.2.2 0 0 rfl⟩

/-! ### C4: best-effort disconnect -/

theorem filterMap_ext {α β : Type} (F G : α → Option β) (h : ∀ a, F a = G a) :
    ∀ l : List α, l.filterMap F = l.filterMap G := by
  intro l
  induction l with
  | nil => rfl
  | cons x rest ih => simp only [List.filterMap_cons, h x, ih]

theorem runDisconnectHooks_map (env : Env) (s : St) (l : List (Factory × Nat)) :
    (runDisconnectHooks env s l).map eventCls =
      l.filterMap (fun p =>
        match instCls s p.2 with
        | some c => if (env c).hasLifecycleMethods then some c else none
        | none => none) := by
  induction l with
  | nil => rfl
  | cons x rest ih =>
    obtain ⟨f, i⟩ := x
    cases hc : instCls s i with
    | none => simp only [runDisconnectHooks, hc, List.filterMap_cons, ih]
    | some c =>
      by_cases hl : (env c).hasLifecycleMethods = true
      · by_cases hd : (env c).disconnectHookFails = true
        · simp [runDisconnectHooks, hc, hl, hd, List.filterMap_cons, eventCls, ih]
        · simp [runDisconnectHooks, hc, hl, hd, List.filterMap_cons, eventCls, ih]
      · simp [runDisconnectHooks, hc, hl, List.filterMap_cons, ih]

/-- C4: `disconnect` awaits the disconnect hook of every lifecycle-capable
materialized instance in reverse registration order, and which hooks are
awaited is unchanged by which hooks raise — a raising hook is caught and
logged and every remaining (earlier-registered) hook is still awaited;
`disconnect`'s total return type registers that it propagates nothing. -/
theorem disconnect_best_effort (env env' : Env) (s : St)
    (hagree : ∀ t, env' t =
      { env t with disconnectHookFails := (env' t).disconnectHookFails }) :
    (disconnect env' s).map eventCls = (disconnect env s).map eventCls ∧
    (disconnect env s).map eventCls =
      (iter_instances env s true).filterMap (fun p =>
        match instCls s p.2 with
        | some c => if (env c).hasLifecycleMethods then some c else none
        | none => none) := by
  have htr : ∀ i, truthyInst env' s i = truthyInst env s i := by
    intro i
    cases hh : s.heap.get? i with
    | none => simp only [truthyInst, hh]
    | some h =>
      simp only [truthyInst, hh]
      rw [hagree h.cls]
  have hiter : ∀ r, iter_instances env' s r = iter_instances env s r := by
    intro r
    unfold iter_instances
    refine filterMap_ext _ _ ?_ _
    intro kd
    cases h2 : kd.2.inst with
    | none => simp only [h2]
    | some i =>
      simp only [h2]
      rw [htr i]
  refine ⟨?_, runDisconnectHooks_map env s _⟩
  unfold disconnect
  rw [runDisconnectHooks_map env' s, hiter true, runDisconnectHooks_map env s]
  refine filterMap_ext _ _ ?_ _
  intro p
  cases hc : instCls s p.2 with
  | none => simp only [hc]
  | some c =>
    simp only [hc]
    rw [hagree c]

/-- A hook-failure-free environment of well-behaved connectable classes. -/
def envDiscOk : Env := fun _ => plainClassInfo []

/-- Like `envDiscOk`, but the disconnect hook of class `1` raises. -/
def envDiscFail : Env := fun t =>
  if t = 1 then { plainClassInfo [] with disconnectHookFails := true }
  else plainClassInfo []

/-- Two registered singletons: class `0` first, class `1` second. -/
def stDisc : St :=
  { bindings := [],
    deps := [(0, ⟨Factory.clsSingleton 0 0, some 0⟩),
             (1, ⟨Factory.clsSingleton 1 1, some 1⟩)],
    postponed := [], heap := [⟨0, []⟩, ⟨1, []⟩] }

/-- C4 witness: although class `1`'s disconnect hook (visited first, in
reverse order) raises and is logged, the earlier-registered class `0` is
still disconnected, and exactly the same hooks are visited as in the
failure-free run. -/
theorem disconnect_best_effort_witness :
    disconnect envDiscFail stDisc =
      [Event.disconnectFailed 1, Event.disconnected 0] ∧
    (disconnect envDiscFail stDisc).map eventCls =
      (disconnect envDiscOk stDisc).map eventCls :=
  ⟨rfl,
    (disconnect_best_effort envDiscOk envDiscFail stDisc (by
      intro t
      by_cases h : t = 1 <;>
        simp [envDiscOk, envDiscFail, h, plainClassInfo])).1⟩

/-! ### C2: connect/disconnect ordering for a dependency chain -/

/-- A dependency chain `A -> B -> C`: class `a` has one parameter of type
`b`, class `b` one of type `c`, class `c` none; all three are well-behaved
lifecycle-capable classes. -/
def chainEnv (a b c : TypeId) : Env := fun t =>
  if t = a then plainClassInfo [⟨"b", ⟨.plain b, false⟩⟩]
  else if t = b then plainClassInfo [⟨"c", ⟨.plain c, false⟩⟩]
  else plainClassInfo []

/-- The injector state after `inject(A)` on a fresh injector for the chain
`a -> b -> c`: registration (first-injection) order is `c`, `b`, `a`. -/
def chainSt (a b c : TypeId) : St :=
  { bindings := [],
    deps := [(c, ⟨Factory.clsSingleton c 0, some 0⟩),
             (b, ⟨Factory.clsSingleton b 1, some 1⟩),
             (a, ⟨Factory.clsSingleton a 2, some 2⟩)],
    postponed := [],
    heap := [⟨c, []⟩, ⟨b, [("c", AttrVal.inst 0)]⟩, ⟨a, [("b", AttrVal.inst 1)]⟩] }

/-- C2: for every dependency chain `A -> B -> C` of distinct
lifecycle-capable classes, `inject(A)` registers the singletons in
first-injection order `C`, `B`, `A`; `connect()` awaits the connect hooks
in exactly that order, and `disconnect()` awaits the disconnect hooks in
the exact reverse order `A`, `B`, `C`. -/
theorem chain_connect_disconnect_order (a b c : TypeId)
    (hab : a ≠ b) (hbc : b ≠ c) (hac : a ≠ c) :
    injectF (chainEnv a b c) 3 a St.start =
      .ok (Factory.clsSingleton a 2, chainSt a b c) ∧
    connect (chainEnv a b c) 0 (chainSt a b c) =
      .ok ([Event.connected c, Event.connected b, Event.connected a], true,
        chainSt a b c) ∧
    disconnect (chainEnv a b c) (chainSt a b c) =
      [Event.disconnected a, Event.disconnected b, Event.disconnected c] := by
  have hba : b ≠ a := hab.symm
  have hcb : c ≠ b := hbc.symm
  have hca : c ≠ a := hac.symm
  refine ⟨?_, ?_, ?_⟩
  · simp [injectF, injectDepsWith, inspect, inspectBody, classifyParams,
      get_type_hints, is_connectable, safe_is_subclass, safe_is_instance,
      unwrap_type_hint, get_cls_from_optional, resolve, lookupB, containerGet,
      depLookup, containerAdd, construct, callFactory, chainEnv, chainSt,
      St.start, plainClassInfo, hab, hbc, hac, hba, hcb, hca]
  · simp [connect, injectPostponed, runConnectHooks, iter_instances,
      truthyInst, instCls, chainEnv, chainSt, plainClassInfo,
      hab, hbc, hac, hba, hcb, hca]
  · simp [disconnect, runDisconnectHooks, iter_instances, truthyInst,
      instCls, chainEnv, chainSt, plainClassInfo,
      hab, hbc, hac, hba, hcb, hca]

/-- C2 witness: the chain ordering at the concrete classes `0 -> 1 -> 2`. -/
theorem chain_connect_disconnect_order_witness :
    injectF (chainEnv 0 1 2) 3 0 St.start =
      .ok (Factory.clsSingleton 0 2, chainSt 0 1 2) ∧
    connect (chainEnv 0 1 2) 0 (chainSt 0 1 2) =
      .ok ([Event.connected 2, Event.connected 1, Event.connected 0], true,
        chainSt 0 1 2) ∧
    disconnect (chainEnv 0 1 2) (chainSt 0 1 2) =
      [Event.disconnected 0, Event.disconnected 1, Event.disconnected 2] :=
  chain_connect_disconnect_order 0 1 2 (by decide) (by decide) (by decide)

/-! ### C6: binding lookup on the inspect-then-inject path -/

/-- Class `3` has one parameter annotated with type `0`; every other type
is a plain well-behaved connectable class.  Used with the chained binding
table `{0 ↦ 1, 1 ↦ 2}`. -/
def envChainBind : Env := fun t =>
  if t = 3 then plainClassInfo [⟨"a", ⟨.plain 0, false⟩⟩]
  else plainClassInfo []

/-- A fresh injector carrying the chained bindings `{0 ↦ 1, 1 ↦ 2}`
(the claim's `{A: B, B: C}`). -/
def stBindStart : St :=
  { bindings := [(0, 1), (1, 2)], deps := [], postponed := [], heap := [] }

/-- The state after `inject(3)` under `envChainBind`: the parameter
annotated `0` received instance `0`, an object of class `2`. -/
def stBindOut : St :=
  { bindings := [(0, 1), (1, 2)],
    deps := [(2, ⟨Factory.clsSingleton 2 0, some 0⟩),
             (3, ⟨Factory.clsSingleton 3 1, some 1⟩)],
    postponed := [],
    heap := [⟨2, []⟩, ⟨3, [("a", AttrVal.inst 0)]⟩] }

/-- C6 counterexample: with bindings `{A: B, B: C}` (`A = 0`, `B = 1`,
`C = 2`), injecting a target whose parameter is annotated `A` constructs
the doubly-rebound `C`, not `B`: `inspect` rebinds the hint `A ↦ B`, and
`inject(B)` applies the binding table again, `B ↦ C`.  The parameter
received instance `0`, whose class is `2` (= C), and no instance of class
`1` (= B) exists. -/
theorem binding_double_applied_cex :
    injectF envChainBind 3 3 stBindStart =
      .ok (Factory.clsSingleton 3 1, stBindOut) ∧
    stBindOut.heap.get? 1 = some ⟨3, [("a", AttrVal.inst 0)]⟩ ∧
    instCls stBindOut 0 = some 2 ∧
    (2 : TypeId) ≠ 1 :=
  ⟨rfl, rfl, rfl, by decide⟩

/-- Class `p` with one parameter annotated with type `a`; every other type
a plain connectable class. -/
def rebindEnv (p a : TypeId) : Env := fun t =>
  if t = p then plainClassInfo [⟨"x", ⟨.plain a, false⟩⟩]
  else plainClassInfo []

/-- C6 amended: each unwrap applies the binding lookup once, but a
dependency parameter is unwrapped twice — once in `inspect` and once again
in the recursive `inject` — so a parameter annotated `A` constructs
`bindings[bindings[A]]` when `bindings[A]` is itself a binding key; when
the bound target `B` is not a binding key, the parameter annotated `A`
constructs exactly `B`. -/
theorem binding_applied_per_unwrap (p a b : TypeId)
    (hpa : p ≠ a) (hpb : p ≠ b) (hab : a ≠ b) :
    injectF (rebindEnv p a) 3 p
        { bindings := [(a, b)], deps := [], postponed := [], heap := [] } =
      .ok (Factory.clsSingleton p 1,
        { bindings := [(a, b)],
          deps := [(b, ⟨Factory.clsSingleton b 0, some 0⟩),
                   (p, ⟨Factory.clsSingleton p 1, some 1⟩)],
          postponed := [],
          heap := [⟨b, []⟩, ⟨p, [("x", AttrVal.inst 0)]⟩] }) := by
  have hap : a ≠ p := hpa.symm
  have hbp : b ≠ p := hpb.symm
  have hba : b ≠ a := hab.symm
  simp [injectF, injectDepsWith, inspect, inspectBody, classifyParams,
    get_type_hints, is_connectable, safe_is_subclass, safe_is_instance,
    unwrap_type_hint, get_cls_from_optional, resolve, lookupB, containerGet,
    depLookup, containerAdd, construct, callFactory, rebindEnv,
    plainClassInfo, hpa, hpb, hab, hap, hbp, hba]

/-- C6 witness: the amended single-binding behaviour at `p = 3`, `a = 0`,
`b = 1`: the parameter annotated `0` constructs class `1`. -/
theorem binding_applied_per_unwrap_witness :
    injectF (rebindEnv 3 0) 3 3
        { bindings := [(0, 1)], deps := [], postponed := [], heap := [] } =
      .ok (Factory.clsSingleton 3 1,
        { bindings := [(0, 1)],
          deps := [(1, ⟨Factory.clsSingleton 1 0, some 0⟩),
                   (3, ⟨Factory.clsSingleton 3 1, some 1⟩)],
          postponed := [],
          heap := [⟨1, []⟩, ⟨3, [("x", AttrVal.inst 0)]⟩] }) :=
  binding_applied_per_unwrap 3 0 1 (by decide) (by decide) (by decide)

/-! ### C7: `connect` materializes postponed targets before awaiting hooks -/

theorem runConnectHooks_mem (env : Env) (s : St) :
    ∀ (l : List (Factory × Nat)) (evs : List Event),
      runConnectHooks env s l = (evs, true) →
      ∀ fi ∈ l, ∀ cc, instCls s fi.2 = some cc →
        (env cc).hasLifecycleMethods = true → Event.connected cc ∈ evs := by
  intro l
  induction l with
  | nil =>
    intro evs h fi hfi
    simp at hfi
  | cons x rest ih =>
    intro evs h fi hfi cc hcc hlc
    obtain ⟨f, i⟩ := x
    cases hc : instCls s i with
    | none =>
      simp only [runConnectHooks, hc] at h
      rcases List.mem_cons.mp hfi with heq | hmem
      · rw [heq] at hcc
        rw [hc] at hcc
        cases hcc
      · exact ih evs h fi hmem cc hcc hlc
    | some c0 =>
      simp only [runConnectHooks, hc] at h
      by_cases hl0 : (env c0).hasLifecycleMethods = true
      · rw [if_pos hl0] at h
        by_cases hcf : (env c0).connectHookFails = true
        · rw [if_pos hcf] at h
          injection h with h1 h2
          exact Bool.noConfusion h2
        · rw [if_neg hcf] at h
          cases hr : runConnectHooks env s rest with
          | mk evs0 ok0 =>
            rw [hr] at h
            injection h with h1 h2
            subst h1
            subst h2
            rcases List.mem_cons.mp hfi with heq | hmem
            · rw [heq] at hcc
              rw [hc] at hcc
              cases hcc
              exact List.mem_cons_self _ _
            · exact List.mem_cons_of_mem _ (ih evs0 hr fi hmem cc hcc hlc)
      · rw [if_neg hl0] at h
        rcases List.mem_cons.mp hfi with heq | hmem
        · rw [heq] at hcc
          rw [hc] at hcc
          cases hcc
          exact absurd hlc hl0
        · exact ih evs h fi hmem cc hcc hlc

theorem injectPostponed_spec (env : Env) (fuel : Nat) :
    ∀ (l : List TypeId) (s s' : St), injectPostponed env fuel l s = .ok s' →
      StepOk env s s' ∧
        ∀ t ∈ l, ∃ d, depLookup s'.deps (resolve s.bindings t) = some d := by
  intro l
  induction l with
  | nil =>
    intro s s' h
    simp only [injectPostponed] at h
    cases h
    refine ⟨StepOk.refl env s, ?_⟩
    intro t ht
    simp at ht
  | cons t0 rest ih =>
    intro s s' h
    cases h1 : injectF env fuel t0 s with
    | error e =>
      simp only [injectPostponed, h1] at h
      exact Except.noConfusion h
    | ok r =>
      obtain ⟨f, s₁⟩ := r
      simp only [injectPostponed, h1] at h
      obtain ⟨hstep1, d0, hld0, -⟩ := injectF_spec env fuel t0 s f s₁ h1
      obtain ⟨hstep2, hrest⟩ := ih s₁ s' h
      have hb1 : s₁.bindings = s.bindings := hstep1.1
      refine ⟨hstep1.trans hstep2, ?_⟩
      intro t ht
      rcases List.mem_cons.mp ht with heq | hmem
      · subst heq
        exact ⟨d0, hstep2.2.2.2.1 _ _ hld0⟩
      · obtain ⟨d, hd⟩ := hrest t hmem
        rw [hb1] at hd
        exact ⟨d, hd⟩

/-- C7: a class target registered through `lazy_inject` before `connect()`
is materialized by `connect` via `inject` — after `connect` returns, the
container holds the singleton wrapper with its constructed instance — and
when the target is lifecycle-capable (and its instance truthy, so that
`iter_instances` yields it) its connect hook was awaited during that very
`connect()` call (here under the hypothesis that `connect` returned without
a hook failure, i.e. fail-fast did not cut the hook loop short). -/
theorem lazy_inject_connect_materializes (env : Env) (fuel : Nat) (s : St)
    (t : TypeId) (evs : List Event) (ok : Bool) (s' : St) (hWF : WF env s)
    (hc : connect env fuel (lazy_inject s t) = .ok (evs, ok, s'))
    (hcls : (env (resolve s.bindings t)).isClass = true)
    (htr : (env (resolve s.bindings t)).instanceTruthy = true)
    (hok : ok = true) :
    ∃ i, depLookup s'.deps (resolve s.bindings t) =
        some ⟨Factory.clsSingleton (resolve s.bindings t) i, some i⟩ ∧
      instCls s' i = some (resolve s.bindings t) ∧
      ((env (resolve s.bindings t)).hasLifecycleMethods = true →
        Event.connected (resolve s.bindings t) ∈ evs) := by
  subst hok
  cases hp : injectPostponed env fuel (lazy_inject s t).postponed (lazy_inject s t) with
  | error e =>
    simp only [connect, hp] at hc
    exact Except.noConfusion hc
  | ok s₀ =>
    cases hr : runConnectHooks env s₀ (iter_instances env s₀ false) with
    | mk evs0 ok0 =>
      simp only [connect, hp, hr, Except.ok.injEq, Prod.mk.injEq] at hc
      obtain ⟨hevs, hok0, hs0⟩ := hc
      subst hevs
      subst hok0
      subst hs0
      obtain ⟨hstep, hall⟩ := injectPostponed_spec env fuel _ _ _ hp
      have hWFl : WF env (lazy_inject s t) := by
        intro k d hk hkcls
        exact hWF k d hk hkcls
      have hWF0 : WF env s₀ := hstep.2.2.2.2 hWFl
      have hmem : t ∈ (lazy_inject s t).postponed := by
        simp [lazy_inject]
      obtain ⟨d, hd⟩ := hall t hmem
      have hbl : (lazy_inject s t).bindings = s.bindings := rfl
      rw [hbl] at hd
      obtain ⟨i, hobj, hinst, hobj2, hget, hclsObj⟩ := hWF0 _ _ hd hcls
      have hdval : d = ⟨Factory.clsSingleton (resolve s.bindings t) i, some i⟩ := by
        cases d with
        | mk o inn =>
          simp only [Dep.mk.injEq]
          exact ⟨hobj, hinst⟩
      have hic : instCls s₀ i = some (resolve s.bindings t) := by
        simp only [instCls, hget, Option.map, hclsObj]
      refine ⟨i, by rw [← hdval]; exact hd, hic, ?_⟩
      intro hlc
      have hmemdeps : (resolve s.bindings t, d) ∈ s₀.deps := depLookup_mem hd
      have htruthy : truthyInst env s₀ i = true := by
        simp only [truthyInst, hget, hclsObj, htr]
      have hiter : (d.object, i) ∈ iter_instances env s₀ false := by
        simp only [iter_instances, List.mem_filterMap]
        refine ⟨(resolve s.bindings t, d), hmemdeps, ?_⟩
        simp [hinst, htruthy]
      exact runConnectHooks_mem env s₀ _ _ hr (d.object, i) hiter
        (resolve s.bindings t) hic hlc

/-- C7 witness: lazily registering class `0` on a fresh injector and then
calling `connect` materializes it and awaits its connect hook. -/
theorem lazy_inject_connect_materializes_witness :
    WF envBasic St.start ∧
    connect envBasic 1 (lazy_inject St.start 0) =
      .ok ([Event.connected 0], true, { stBasic with postponed := [0] }) ∧
    (∃ i, depLookup ({ stBasic with postponed := [0] } : St).deps
        (resolve St.start.bindings 0) =
        some ⟨Factory.clsSingleton (resolve St.start.bindings 0) i, some i⟩ ∧
      instCls { stBasic with postponed := [0] } i =
        some (resolve St.start.bindings 0) ∧
      ((envBasic (resolve St.start.bindings 0)).hasLifecycleMethods = true →
        Event.connected (resolve St.start.bindings 0) ∈ [Event.connected 0])) :=
  ⟨WF_of_deps_nil envBasic St.start rfl, rfl,
    lazy_inject_connect_materializes envBasic 1 St.start 0 [Event.connected 0]
      true { stBasic with postponed := [0] }
      (WF_of_deps_nil envBasic St.start rfl) rfl rfl rfl rfl⟩

end MagicDi
